import Mathlib

/-!
Verification development for the passwd repository (a Tauri password
manager).  The repository ships the Vue front end (src/unnamed/part_000,
src/src/App.vue, src/src/components/searchbar.vue) together with design
documents; the Rust core (crypto.rs, manager.rs, store.rs) is not part of
the source tree, so the CryptoService / PasswordManager definitions below
are modelled from the specification, while the UI-side definitions are
translated directly from the Vue sources.
-/

/- ===================== CryptoService (spec model) ===================== -/

namespace Crypto

/-- Encrypted payload, the EncryptedData record of the data model:
ciphertext, nonce and salt, bytes modelled as naturals below 256. -/
structure EncryptedData where
  ciphertext : List Nat
  nonce : List Nat
  salt : List Nat
deriving Repr, DecidableEq

/-- Master key: fixed-width derived key plus the derivation salt. -/
structure MasterKey where
  derived_key : List Nat
  salt : List Nat
deriving Repr, DecidableEq

/-- Cryptographic failure taxonomy of the spec (section 7). -/
inductive CryptoError where
  | DecryptionError
  | MalformedCiphertextError
deriving Repr, DecidableEq

/-- Nonce length fixed by the cipher (12 bytes for GCM-class ciphers). -/
def nonceLength : Nat := 12

/-- Fixed AEAD authentication-tag length (16 bytes for AES-256-GCM). -/
def tagLength : Nat := 16

/-- Modelled from the spec: abstract pseudo-random function standing in for
the AES-256-GCM keystream/MAC primitive (crypto.rs is not in the source
tree).  Deterministic in the key, the nonce and the position. -/
def prf (key nonce : List Nat) (i : Nat) : Nat :=
  ((key.foldl (fun a b => a * 131 + b) 7) * 257 +
   (nonce.foldl (fun a b => a * 131 + b) 11) * 8191 +
   i * 2654435761) % 256

/-- Keystream of a given length derived from key and nonce. -/
def keystream (key nonce : List Nat) (n : Nat) : List Nat :=
  (List.range n).map (prf key nonce)

/-- Authentication tag over key, nonce and ciphertext body. -/
def authTag (key nonce body : List Nat) : List Nat :=
  (List.range tagLength).map (fun i => prf (key ++ body) nonce (i + 977))

/-- Fresh nonce generated from a randomness seed; always 12 bytes. -/
def freshNonce (seed : Nat) : List Nat :=
  (List.range nonceLength).map (fun i => (seed + 7 * i) % 256)

/-- Modelled from the spec: encrypt generates a fresh nonce (from the
randomness seed), XORs the plaintext with the keystream, appends the
authentication tag, and returns ciphertext + nonce + the derivation salt.
Invariant kept: ciphertext length = plaintext length + tag length. -/
def encrypt (k : MasterKey) (seed : Nat) (plaintext : List Nat) : EncryptedData :=
  let nonce := freshNonce seed
  let body := List.zipWith Nat.xor plaintext (keystream k.derived_key nonce plaintext.length)
  { ciphertext := body ++ authTag k.derived_key nonce body
    nonce := nonce
    salt := k.salt }

/-- Modelled from the spec: decrypt rejects malformed lengths before
attempting decryption, fails with DecryptionError on tag mismatch (wrong
key, tampering), and otherwise inverts the keystream XOR.  Never returns
partial plaintext. -/
def decrypt (k : MasterKey) (d : EncryptedData) : Except CryptoError (List Nat) :=
  if d.nonce.length ≠ nonceLength ∨ d.ciphertext.length < tagLength then
    .error .MalformedCiphertextError
  else if d.ciphertext.drop (d.ciphertext.length - tagLength)
      ≠ authTag k.derived_key d.nonce (d.ciphertext.take (d.ciphertext.length - tagLength)) then
    .error .DecryptionError
  else
    .ok (List.zipWith Nat.xor (d.ciphertext.take (d.ciphertext.length - tagLength))
      (keystream k.derived_key d.nonce (d.ciphertext.length - tagLength)))

theorem keystream_length (key nonce : List Nat) (n : Nat) :
    (keystream key nonce n).length = n := by
  simp [keystream]

theorem zipWith_xor_cancel (p : List Nat) : ∀ ks : List Nat, p.length = ks.length →
    List.zipWith Nat.xor (List.zipWith Nat.xor p ks) ks = p := by
  induction p with
  | nil => intro ks _; simp
  | cons a p ih =>
    intro ks h
    cases ks with
    | nil => simp at h
    | cons b ks =>
      simp only [List.zipWith]
      rw [ih ks (by simpa using h)]
      congr 1
      exact Nat.xor_cancel_right b a

end Crypto

/- ================= PasswordManager merge and sync (spec model) ======== -/

namespace Manager

/-- Entry of the logical dataset; the fields the merge and sync algorithms
inspect (id, updated_at) plus representative payload fields. -/
structure Entry where
  id : Nat
  title : String
  username : String
  created_at : Nat
  updated_at : Nat
deriving Repr, DecidableEq

/-- Modelled from the spec: overwriting insertion used while merging
backend snapshots (manager.rs is not in the source tree).  When the id is
already present the later-merged entry overwrites the earlier one,
otherwise the entry is appended. -/
def upsert : List Entry → Entry → List Entry
  | [], e => [e]
  | x :: xs, e => if x.id = e.id then e :: xs else x :: upsert xs e

/-- Modelled from the spec: get_all(All) loads every enabled backend in
fixed priority order (local before remote) and merges them; the backend
merged later overwrites on id conflicts. -/
def mergeSnapshots (backends : List (List Entry)) : List Entry :=
  backends.foldl (fun acc snap => snap.foldl upsert acc) []

/-- The merged view get_all(All) serves. -/
def get_all_All (backends : List (List Entry)) : List Entry :=
  mergeSnapshots backends

/-- First entry carrying a given id, the lookup the manager's get_by_id
performs on a merged view. -/
def findById (es : List Entry) (i : Nat) : Option Entry :=
  es.find? (fun e => e.id = i)

/-- Modelled from the spec: per-entry step of sync_storages.  An entry of
the from-side overwrites its counterpart in the to-side only when its
updated_at is strictly newer; entries absent from the to-side are
appended; everything else in the to-side is untouched. -/
def syncEntry (toEs : List Entry) (e : Entry) : List Entry :=
  match toEs.find? (fun x => x.id = e.id) with
  | some x =>
      if x.updated_at < e.updated_at then
        toEs.map (fun y => if y.id = e.id then e else y)
      else toEs
  | none => toEs ++ [e]

/-- Modelled from the spec: sync_storages(from, to) writes the from-side
entries into the to-side with last-write-wins by updated_at; returns the
new to-side snapshot. -/
def sync_storages (fromEs toEs : List Entry) : List Entry :=
  fromEs.foldl syncEntry toEs

theorem findById_upsert_self (es : List Entry) (e : Entry) :
    findById (upsert es e) e.id = some e := by
  induction es with
  | nil => simp [upsert, findById]
  | cons x xs ih =>
    by_cases h : x.id = e.id
    · simp only [upsert, if_pos h, findById]
      exact List.find?_cons_of_pos _ (by simp)
    · simp only [upsert, if_neg h, findById]
      rw [List.find?_cons_of_neg _ (by simpa using h)]
      exact ih

theorem findById_upsert_ne (es : List Entry) (e : Entry) (i : Nat) (hne : i ≠ e.id) :
    findById (upsert es e) i = findById es i := by
  have hei : ¬ (e.id = i) := fun hh => hne hh.symm
  induction es with
  | nil =>
    simp only [upsert, findById]
    rw [List.find?_cons_of_neg _ (by simpa using hei)]
  | cons x xs ih =>
    by_cases h : x.id = e.id
    · simp only [upsert, if_pos h, findById]
      rw [List.find?_cons_of_neg _ (by simpa using hei),
          List.find?_cons_of_neg _ (by simp [h, hei])]
    · simp only [upsert, if_neg h, findById]
      by_cases hx : x.id = i
      · rw [List.find?_cons_of_pos _ (by simpa using hx),
            List.find?_cons_of_pos _ (by simpa using hx)]
      · rw [List.find?_cons_of_neg _ (by simpa using hx),
            List.find?_cons_of_neg _ (by simpa using hx)]
        exact ih

theorem findById_foldl_not_mem (snap : List Entry) :
    ∀ acc : List Entry, ∀ i : Nat, (∀ e ∈ snap, e.id ≠ i) →
    findById (snap.foldl upsert acc) i = findById acc i := by
  induction snap with
  | nil => intro acc i _; rfl
  | cons c rest ih =>
    intro acc i h
    simp only [List.foldl]
    rw [ih (upsert acc c) i (fun e he => h e (List.mem_cons_of_mem c he))]
    exact findById_upsert_ne acc c i (fun hh => h c (List.mem_cons_self c rest) hh.symm)

theorem findById_foldl_mem (snap : List Entry) :
    ∀ acc : List Entry, ∀ i : Nat, ∀ eB : Entry, eB ∈ snap → eB.id = i →
    (snap.map Entry.id).Nodup →
    findById (snap.foldl upsert acc) i = some eB := by
  induction snap with
  | nil => intro acc i eB h; exact absurd h (List.not_mem_nil eB)
  | cons c rest ih =>
    intro acc i eB hmem hid hnodup
    simp only [List.map, List.nodup_cons] at hnodup
    obtain ⟨hcnot, hrest⟩ := hnodup
    simp only [List.foldl]
    rcases List.mem_cons.1 hmem with heq | hmemr
    · subst heq
      rw [findById_foldl_not_mem rest (upsert acc eB) i]
      · rw [← hid]; exact findById_upsert_self acc eB
      · intro e he hei
        exact hcnot (by rw [hid, ← hei]; exact List.mem_map_of_mem Entry.id he)
    · exact ih (upsert acc c) i eB hmemr hid hrest

theorem sync_mem_preserved (fromEs : List Entry) :
    ∀ toEs : List Entry, ∀ e : Entry, e ∈ toEs → (∀ f ∈ fromEs, f.id ≠ e.id) →
    e ∈ sync_storages fromEs toEs := by
  induction fromEs with
  | nil => intro toEs e he _; exact he
  | cons f rest ih =>
    intro toEs e he h
    have hf : f.id ≠ e.id := h f (List.mem_cons_self f rest)
    have hstep : e ∈ syncEntry toEs f := by
      unfold syncEntry
      cases hfind : toEs.find? (fun x => x.id = f.id) with
      | none => exact List.mem_append_left _ he
      | some x =>
        dsimp only
        by_cases hupd : x.updated_at < f.updated_at
        · rw [if_pos hupd]
          refine List.mem_map.2 ⟨e, he, ?_⟩
          rw [if_neg (fun hh => hf (Eq.symm hh))]
        · rw [if_neg hupd]; exact he
    exact ih (syncEntry toEs f) e hstep (fun g hg => h g (List.mem_cons_of_mem f hg))

theorem find?_map_overwrite (toEs : List Entry) (f : Entry) (i : Nat) (hne : f.id ≠ i) :
    (toEs.map (fun y => if y.id = f.id then f else y)).find? (fun e => e.id = i)
      = toEs.find? (fun e => e.id = i) := by
  induction toEs with
  | nil => rfl
  | cons y ys ih =>
    simp only [List.map]
    by_cases hy : y.id = f.id
    · rw [if_pos hy]
      rw [List.find?_cons_of_neg _ (by simpa using hne),
          List.find?_cons_of_neg _ (by simp [hy, hne])]
      exact ih
    · rw [if_neg hy]
      by_cases hx : y.id = i
      · rw [List.find?_cons_of_pos _ (by simpa using hx),
            List.find?_cons_of_pos _ (by simpa using hx)]
      · rw [List.find?_cons_of_neg _ (by simpa using hx),
            List.find?_cons_of_neg _ (by simpa using hx)]
        exact ih

theorem findById_syncEntry_ne (toEs : List Entry) (f : Entry) (i : Nat) (hne : f.id ≠ i) :
    findById (syncEntry toEs f) i = findById toEs i := by
  unfold syncEntry findById
  cases hfind : toEs.find? (fun x => x.id = f.id) with
  | none =>
    dsimp only
    rw [List.find?_append]
    have hsingle : List.find? (fun e => decide (e.id = i)) [f] = none := by
      rw [List.find?_cons_of_neg _ (by simpa using hne)]
      rfl
    rw [hsingle]
    exact Option.or_none
  | some x =>
    dsimp only
    by_cases hupd : x.updated_at < f.updated_at
    · rw [if_pos hupd]
      exact find?_map_overwrite toEs f i hne
    · rw [if_neg hupd]

theorem findById_sync_not_from (fromEs : List Entry) :
    ∀ toEs : List Entry, ∀ i : Nat, (∀ f ∈ fromEs, f.id ≠ i) →
    findById (sync_storages fromEs toEs) i = findById toEs i := by
  induction fromEs with
  | nil => intro toEs i _; rfl
  | cons f rest ih =>
    intro toEs i h
    have hstep : sync_storages (f :: rest) toEs = sync_storages rest (syncEntry toEs f) := rfl
    rw [hstep, ih (syncEntry toEs f) i (fun g hg => h g (List.mem_cons_of_mem f hg))]
    exact findById_syncEntry_ne toEs f i (h f (List.mem_cons_self f rest))

end Manager

/- ======================= Theorems for claim C2 ======================== -/

/-- C2: for backends A (priority 1, merged first) and B (priority 2,
merged later) that both contain an entry with id X but different
updated_at timestamps, get_all(All) returns B's version of X: the
later-merged backend wins regardless of the timestamps.  The merged view
is a pure function of the snapshots, so the result is independent of call
order. -/
theorem merge_priority_wins (A B : List Manager.Entry) (eA eB : Manager.Entry) (X : Nat)
    (hA : eA ∈ A) (hAid : eA.id = X) (hB : eB ∈ B) (hBid : eB.id = X)
    (hts : eA.updated_at ≠ eB.updated_at)
    (hBnodup : (B.map Manager.Entry.id).Nodup) :
    Manager.findById (Manager.get_all_All [A, B]) X = some eB := by
  show Manager.findById (B.foldl Manager.upsert (A.foldl Manager.upsert [])) X = some eB
  exact Manager.findById_foldl_mem B _ X eB hB hBid hBnodup

/-- Witness for C2: concrete backends where A and B disagree on entry 1,
A's copy is even newer, yet B's copy is returned. -/
theorem merge_priority_wins_witness :
    Manager.findById
      (Manager.get_all_All
        [[Manager.Entry.mk 1 "titleA" "userA" 0 99],
         [Manager.Entry.mk 1 "titleB" "userB" 0 5]]) 1
      = some (Manager.Entry.mk 1 "titleB" "userB" 0 5) :=
  merge_priority_wins
    [Manager.Entry.mk 1 "titleA" "userA" 0 99]
    [Manager.Entry.mk 1 "titleB" "userB" 0 5]
    (Manager.Entry.mk 1 "titleA" "userA" 0 99)
    (Manager.Entry.mk 1 "titleB" "userB" 0 5) 1
    (by decide) (by decide) (by decide) (by decide) (by decide) (by decide)

/- ======================= Theorems for claim C3 ======================== -/

/-- C3: after sync_storages(A, B), every entry that was present only in B
(its id absent from A) is still present in B with the same value, and a
lookup of its id in B is unchanged: sync never removes or alters to-side
only data. -/
theorem sync_non_destructive (A B : List Manager.Entry) (e : Manager.Entry)
    (he : e ∈ B) (honly : ∀ f ∈ A, f.id ≠ e.id) :
    e ∈ Manager.sync_storages A B ∧
    Manager.findById (Manager.sync_storages A B) e.id = Manager.findById B e.id :=
  ⟨Manager.sync_mem_preserved A B e he honly,
   Manager.findById_sync_not_from A B e.id honly⟩

/-- Witness for C3: entry 2 lives only in B; it survives a sync from A
unchanged. -/
theorem sync_non_destructive_witness :
    (Manager.Entry.mk 2 "only-in-B" "u" 0 3) ∈
      Manager.sync_storages [Manager.Entry.mk 1 "from" "v" 0 9]
        [Manager.Entry.mk 2 "only-in-B" "u" 0 3] ∧
    Manager.findById
      (Manager.sync_storages [Manager.Entry.mk 1 "from" "v" 0 9]
        [Manager.Entry.mk 2 "only-in-B" "u" 0 3]) 2
      = Manager.findById [Manager.Entry.mk 2 "only-in-B" "u" 0 3] 2 :=
  sync_non_destructive [Manager.Entry.mk 1 "from" "v" 0 9]
    [Manager.Entry.mk 2 "only-in-B" "u" 0 3]
    (Manager.Entry.mk 2 "only-in-B" "u" 0 3) (by decide) (by decide)

/- ================= Front-end data model and handlers (from code) ====== -/

namespace UI

/-- ErrorInfo interface of src/unnamed/part_000. -/
structure ErrorInfo where
  code : Int
  info : String
deriving Repr, DecidableEq

/-- EncryptedData interface as the front end receives it
(src/unnamed/part_000): encoded strings for ciphertext, nonce, salt. -/
structure EncryptedData where
  ciphertext : String
  nonce : String
  salt : String
deriving Repr, DecidableEq

/-- Password interface of src/unnamed/part_000 (lines 14-24): the secret
lives under the field encrypted_password. -/
structure Password where
  id : String
  title : String
  description : String
  tags : List String
  username : String
  encrypted_password : EncryptedData
  url : Option String
  created_at : String
  updated_at : String
deriving Repr, DecidableEq

/-- StorageMetadata interface of src/unnamed/part_000 (lines 26-30). -/
structure StorageMetadata where
  version : String
  last_sync : String
  password_count : Nat
deriving Repr, DecidableEq

/-- StorageData interface of src/unnamed/part_000 (lines 31-35): the
document returned by get_all_passwords_from_storage, with the entry
sequence under the field passwords. -/
structure StorageData where
  metadata : StorageMetadata
  passwords : List Password
deriving Repr, DecidableEq

/-- PasswordCreateRequest interface of src/unnamed/part_000 (lines 66-74). -/
structure PasswordCreateRequest where
  title : String
  description : String
  tags : List String
  username : String
  password : String
  url : Option String
  key : String
deriving Repr, DecidableEq

/-- Reactive state of the main view that the modelled handlers read and
update: the displayed password list, the search query and the error
banner. -/
structure UIState where
  passwords : List Password
  searchQuery : String
  error : String
deriving Repr, DecidableEq

/-- loadPasswords of src/unnamed/part_000 (lines 148-157): invokes
get_all_passwords_from_storage on the local backend; on success it
replaces the displayed list with the document's passwords, on failure it
records an error message and empties the list. -/
def loadPasswords (res : Except String StorageData) (st : UIState) : UIState :=
  match res with
  | .ok d => { st with passwords := d.passwords }
  | .error e => { st with error := "加载密码失败: " ++ e, passwords := [] }

/-- Blank test used by handleSearch: the JS guard on query.trim() is
truthy-false exactly when every character of the query is whitespace. -/
def isBlank (q : String) : Bool := q.toList.all Char.isWhitespace

/-- handleSearch of src/unnamed/part_000 (lines 160-176): a blank query
falls back to loadPasswords, any other query invokes search_passwords and
displays the matches.  Returns the backend commands invoked together with
the new state. -/
def handleSearch (q : String) (loadRes : Except String StorageData)
    (searchRes : Except String (List Password)) (st : UIState) :
    List String × UIState :=
  if isBlank q then
    (["get_all_passwords_from_storage"],
      loadPasswords loadRes { st with searchQuery := q })
  else
    match searchRes with
    | .ok rs => (["search_passwords"], { st with searchQuery := q, passwords := rs })
    | .error e =>
      (["search_passwords"], { st with searchQuery := q, error := "搜索失败: " ++ e })

/-- addPassword of src/unnamed/part_000 (lines 179-199): the guard
dispatches the add_password command only when title, username, password
and key are all non-empty (JS truthiness on strings), otherwise it
records the missing-field error and invokes nothing.  Returns the
commands invoked and the error message, if any. -/
def addPassword (r : PasswordCreateRequest) : List String × Option String :=
  if r.title = "" ∨ r.username = "" ∨ r.password = "" ∨ r.key = "" then
    ([], some "请填写所有必填字段")
  else
    (["add_password"], none)

/-- addTag of src/unnamed/part_000 (lines 264-268): appends the tag only
when it is non-empty and not already present. -/
def addTag (tags : List String) (tag : String) : List String :=
  if tag ≠ "" ∧ tag ∉ tags then tags ++ [tag] else tags

/-- removeTag of src/unnamed/part_000 (lines 270-275): indexOf followed by
splice of one element, i.e. removal of the first occurrence; absent tags
leave the list unchanged. -/
def removeTag : List String → String → List String
  | [], _ => []
  | t :: ts, tag => if t = tag then ts else t :: removeTag ts tag

/-- Invariant the tag handlers maintain on the pending request's tag
list: no duplicates and no empty string. -/
def validTags (tags : List String) : Prop := tags.Nodup ∧ "" ∉ tags

theorem removeTag_sublist (tags : List String) (tag : String) :
    (removeTag tags tag).Sublist tags := by
  induction tags with
  | nil => simp [removeTag]
  | cons t ts ih =>
    simp only [removeTag]
    by_cases h : t = tag
    · rw [if_pos h]
      exact List.sublist_cons_self t ts
    · rw [if_neg h]
      exact List.Sublist.cons₂ t ih

theorem removeTag_of_not_mem (tags : List String) (tag : String) (h : tag ∉ tags) :
    removeTag tags tag = tags := by
  induction tags with
  | nil => rfl
  | cons t ts ih =>
    simp only [removeTag]
    rw [if_neg (fun hh => h (by rw [← hh]; exact List.mem_cons_self t ts))]
    rw [ih (fun hh => h (List.mem_cons_of_mem t hh))]

theorem length_removeTag_of_mem (tags : List String) (tag : String) (h : tag ∈ tags) :
    (removeTag tags tag).length + 1 = tags.length := by
  induction tags with
  | nil => exact absurd h (List.not_mem_nil tag)
  | cons t ts ih =>
    simp only [removeTag]
    by_cases hh : t = tag
    · rw [if_pos hh]; rfl
    · rw [if_neg hh]
      have hmem : tag ∈ ts := by
        rcases List.mem_cons.1 h with h1 | h1
        · exact absurd h1.symm hh
        · exact h1
      simp only [List.length_cons]
      rw [← ih hmem]

theorem not_mem_removeTag_of_nodup (tags : List String) (tag : String)
    (hnd : tags.Nodup) : tag ∉ removeTag tags tag := by
  induction tags with
  | nil => simp [removeTag]
  | cons t ts ih =>
    rw [List.nodup_cons] at hnd
    simp only [removeTag]
    by_cases hh : t = tag
    · rw [if_pos hh]
      exact fun hm => hnd.1 (hh ▸ hm)
    · rw [if_neg hh]
      intro hm
      rcases List.mem_cons.1 hm with h1 | h1
      · exact hh h1.symm
      · exact ih hnd.2 h1

end UI

/- ================= Manager-side validation (spec model) =============== -/

namespace Manager

/-- PasswordManager error taxonomy of the spec (section 7). -/
inductive ManagerError where
  | ValidationError
  | StorageUnavailableError
  | NotFoundError
deriving Repr, DecidableEq

/-- Modelled from the spec: add(request) validates that the required
fields (title, username, password, key) are present and non-empty and
fails with ValidationError on missing fields (manager.rs is not in the
source tree). -/
def addValidate (r : UI.PasswordCreateRequest) : Except ManagerError Unit :=
  if r.title = "" ∨ r.username = "" ∨ r.password = "" ∨ r.key = "" then
    .error .ValidationError
  else .ok ()

end Manager

/- ======================= Theorems for claim C4 ======================== -/

/-- C4: the UI dispatches add_password if and only if title, username,
password and key are all non-empty; when it does not, it reports the
missing-field error without invoking the backend; and the manager's add
validates the same required fields, failing with ValidationError exactly
when one is missing. -/
theorem add_password_validation (r : UI.PasswordCreateRequest) :
    ("add_password" ∈ (UI.addPassword r).1 ↔
      (r.title ≠ "" ∧ r.username ≠ "" ∧ r.password ≠ "" ∧ r.key ≠ "")) ∧
    ((UI.addPassword r).1 = [] → (UI.addPassword r).2 = some "请填写所有必填字段") ∧
    (Manager.addValidate r = Except.error Manager.ManagerError.ValidationError ↔
      (r.title = "" ∨ r.username = "" ∨ r.password = "" ∨ r.key = "")) := by
  unfold UI.addPassword Manager.addValidate
  by_cases h : r.title = "" ∨ r.username = "" ∨ r.password = "" ∨ r.key = ""
  · rw [if_pos h, if_pos h]
    refine ⟨⟨fun hm => absurd hm (List.not_mem_nil _), fun hc => ?_⟩,
      fun _ => rfl, fun _ => h, fun _ => rfl⟩
    rcases h with h | h | h | h
    · exact absurd h hc.1
    · exact absurd h hc.2.1
    · exact absurd h hc.2.2.1
    · exact absurd h hc.2.2.2
  · rw [if_neg h, if_neg h]
    push_neg at h
    refine ⟨⟨fun _ => h, fun _ => List.mem_cons_self _ _⟩,
      fun hh => absurd hh (by simp), ⟨fun hh => ?_, fun hh => ?_⟩⟩
    · cases hh
    · rcases hh with hh | hh | hh | hh
      · exact absurd hh h.1
      · exact absurd hh h.2.1
      · exact absurd hh h.2.2.1
      · exact absurd hh h.2.2.2

/-- Witness for C4: a request with every required field filled does
dispatch add_password. -/
theorem add_password_validation_witness :
    "add_password" ∈ (UI.addPassword
      (UI.PasswordCreateRequest.mk "acct" "" [] "user" "pw" none "key")).1 :=
  (add_password_validation
    (UI.PasswordCreateRequest.mk "acct" "" [] "user" "pw" none "key")).1.2
    (by refine ⟨?_, ?_, ?_, ?_⟩ <;> decide)

/- ================= Interface field names (code vs spec) =============== -/

/-- Field names of the JSON document the UI exchanges with
get_all_passwords_from_storage, as declared by the StorageData interface
of src/unnamed/part_000 (lines 31-35). -/
def storageDataFields : List String := ["metadata", "passwords"]

/-- Field names of the metadata object (src/unnamed/part_000 lines 26-30). -/
def storageMetadataFields : List String := ["version", "last_sync", "password_count"]

/-- Field names of each entry record (src/unnamed/part_000 lines 14-24). -/
def passwordFields : List String :=
  ["id", "title", "description", "tags", "username", "encrypted_password",
   "url", "created_at", "updated_at"]

/-- Snapshot shape as the spec words it: StorageSnapshot is metadata plus
a field named entries; metadata carries version, last_sync and
entry_count.  Stated only for comparison against the code-side lists. -/
def specSnapshotFields : List String := ["metadata", "entries"]

/-- Metadata shape as the spec words it. -/
def specMetadataFields : List String := ["version", "last_sync", "entry_count"]

/-- Name the spec gives to the encrypted-secret field of an entry. -/
def specEntrySecretField : String := "encrypted_secret"

/- ======================= Theorems for claim C5 ======================== -/

/-- C5 counterexample: the snapshot of the public interface has no field
named entries, no metadata field entry_count and no entry field
encrypted_secret, contradicting the claimed StorageSnapshot field names. -/
theorem snapshot_shape_counterexample :
    ¬ ("entries" ∈ storageDataFields ∧ "entry_count" ∈ storageMetadataFields ∧
       specEntrySecretField ∈ passwordFields) := by decide

/-- C5 amended: the snapshot has the StorageSnapshot shape up to three
renames — the entry sequence lives under passwords (not entries),
metadata carries version, last_sync and password_count (not entry_count),
and each entry stores its encrypted secret under encrypted_password (not
encrypted_secret). -/
theorem snapshot_shape_amended :
    storageDataFields
      = specSnapshotFields.map (fun f => if f = "entries" then "passwords" else f) ∧
    storageMetadataFields
      = specMetadataFields.map (fun f => if f = "entry_count" then "password_count" else f) ∧
    "encrypted_password" ∈ passwordFields ∧
    specEntrySecretField ∉ passwordFields ∧
    "metadata" ∈ storageDataFields ∧
    "version" ∈ storageMetadataFields ∧
    "last_sync" ∈ storageMetadataFields := by decide

/- ================= Command surface (code vs spec) ===================== -/

/-- The fifteen-command surface of the spec (section 6). -/
def specCommandSurface : List String :=
  ["initialize_manager", "add_password", "delete_password", "search_passwords",
   "search_passwords_in_storage", "get_all_passwords_from_storage",
   "get_password_by_id_from_storage", "get_storage_status", "sync_storages",
   "generate_password", "decrypt_password", "decrypt_description",
   "get_config", "update_config", "verify_master_password"]

/-- Commands invoked by the main password-manager view
(src/unnamed/part_000: initializeApp, loadPasswords, handleSearch,
addPassword, deletePassword, decryptPasswordFunc, generatePassword). -/
def mainViewInvokedCommands : List String :=
  ["initialize_manager", "get_all_passwords_from_storage", "search_passwords",
   "add_password", "delete_password", "decrypt_password", "generate_password"]

/-- Commands invoked by src/src/App.vue (lines 20-24): greet and
fetch_data. -/
def appViewInvokedCommands : List String := ["greet", "fetch_data"]

/-- Every invoke call the frontend issues, across both views. -/
def frontendInvokedCommands : List String :=
  mainViewInvokedCommands ++ appViewInvokedCommands

/- ======================= Theorems for claim C6 ======================== -/

/-- C6 counterexample: the frontend invokes the command greet (App.vue),
which is not one of the fifteen operations of the spec's command
surface. -/
theorem command_surface_counterexample :
    "greet" ∈ frontendInvokedCommands ∧ "greet" ∉ specCommandSurface := by decide

/-- C6 amended: every command the password-manager view invokes is one of
the fifteen operations of the command surface; the demo view App.vue
additionally invokes greet and fetch_data, which are outside it. -/
theorem command_surface_amended :
    specCommandSurface.length = 15 ∧
    (∀ c ∈ mainViewInvokedCommands, c ∈ specCommandSurface) ∧
    (∀ c ∈ appViewInvokedCommands, c ∉ specCommandSurface) := by decide

/- ======================= Theorems for claim C1 ======================== -/

/-- C1: for every plaintext byte sequence p and every valid master key k
(fixed 32-byte derived key), decrypt(k, encrypt(k, p)) returns exactly p:
the CryptoService round trip is the identity. -/
theorem crypto_round_trip (k : Crypto.MasterKey) (seed : Nat) (p : List Nat)
    (hk : k.derived_key.length = 32) :
    Crypto.decrypt k (Crypto.encrypt k seed p) = Except.ok p := by
  have hnonce : (Crypto.freshNonce seed).length = Crypto.nonceLength := by
    simp [Crypto.freshNonce]
  have htag : ∀ key nonce body, (Crypto.authTag key nonce body).length = Crypto.tagLength := by
    intro key nonce body; simp [Crypto.authTag]
  unfold Crypto.encrypt Crypto.decrypt
  simp only []
  set nonce := Crypto.freshNonce seed with hn
  set body := List.zipWith Nat.xor p (Crypto.keystream k.derived_key nonce p.length) with hb
  have hbodylen : body.length = p.length := by
    rw [hb]
    rw [List.length_zipWith, Crypto.keystream_length]
    exact Nat.min_self _
  have hctlen : (body ++ Crypto.authTag k.derived_key nonce body).length
      = body.length + Crypto.tagLength := by
    rw [List.length_append, htag]
  have hsub : (body ++ Crypto.authTag k.derived_key nonce body).length - Crypto.tagLength
      = body.length := by omega
  have htake : (body ++ Crypto.authTag k.derived_key nonce body).take
      ((body ++ Crypto.authTag k.derived_key nonce body).length - Crypto.tagLength) = body := by
    rw [hsub]; exact List.take_left body _
  have hdrop : (body ++ Crypto.authTag k.derived_key nonce body).drop
      ((body ++ Crypto.authTag k.derived_key nonce body).length - Crypto.tagLength)
      = Crypto.authTag k.derived_key nonce body := by
    rw [hsub]; exact List.drop_left body _
  rw [if_neg]
  · rw [htake, hdrop, if_neg (by simp)]
    rw [hsub, hbodylen, hb]
    rw [Crypto.zipWith_xor_cancel p _ (by rw [Crypto.keystream_length])]
  · rw [hnonce, hctlen]
    simp [Crypto.tagLength]

/-- Witness for C1 at a concrete 32-byte key, seed and plaintext. -/
theorem crypto_round_trip_witness :
    (Crypto.MasterKey.mk (List.replicate 32 7) [1, 2]).derived_key.length = 32 ∧
    Crypto.decrypt (Crypto.MasterKey.mk (List.replicate 32 7) [1, 2])
      (Crypto.encrypt (Crypto.MasterKey.mk (List.replicate 32 7) [1, 2]) 5 [10, 20, 30])
      = Except.ok [10, 20, 30] :=
  ⟨by decide, crypto_round_trip (Crypto.MasterKey.mk (List.replicate 32 7) [1, 2]) 5
    [10, 20, 30] (by decide)⟩

/- ======================= Theorems for claim C8 ======================== -/

/-- C8: a query whose trimmed form is empty (all-whitespace) makes
handleSearch invoke get_all_passwords_from_storage — never
search_passwords — and replace the displayed list with the local
backend's full list; any query with non-blank content invokes
search_passwords and replaces the displayed list with the returned
matches. -/
theorem handleSearch_spec (q : String) (loadRes : Except String UI.StorageData)
    (searchRes : Except String (List UI.Password)) (st : UI.UIState) :
    (UI.isBlank q = true →
      (UI.handleSearch q loadRes searchRes st).1 = ["get_all_passwords_from_storage"] ∧
      "search_passwords" ∉ (UI.handleSearch q loadRes searchRes st).1 ∧
      ∀ d, loadRes = Except.ok d →
        (UI.handleSearch q loadRes searchRes st).2.passwords = d.passwords) ∧
    (UI.isBlank q = false →
      (UI.handleSearch q loadRes searchRes st).1 = ["search_passwords"] ∧
      ∀ rs, searchRes = Except.ok rs →
        (UI.handleSearch q loadRes searchRes st).2.passwords = rs) := by
  unfold UI.handleSearch
  cases hq : UI.isBlank q with
  | true =>
    rw [if_pos rfl]
    refine ⟨fun _ => ⟨rfl, by simp, fun d hd => ?_⟩, fun hf => absurd hf (by simp)⟩
    subst hd
    rfl
  | false =>
    rw [if_neg (by simp)]
    refine ⟨fun hf => absurd hf (by simp), fun _ => ?_⟩
    cases searchRes with
    | ok rs => exact ⟨rfl, fun rs' h => by injection h⟩
    | error e => exact ⟨rfl, fun rs' h => by cases h⟩

/-- Witness for C8: a whitespace query loads the full local list, and a
non-blank one displays the search matches. -/
theorem handleSearch_spec_witness :
    (UI.handleSearch "  " (Except.ok (UI.StorageData.mk
        (UI.StorageMetadata.mk "1" "now" 0) []))
      (Except.error "unused") (UI.UIState.mk [] "" "")).1
      = ["get_all_passwords_from_storage"] ∧
    (UI.handleSearch "bank" (Except.error "unused")
      (Except.ok []) (UI.UIState.mk [] "" "")).2.passwords = [] :=
  ⟨((handleSearch_spec "  " (Except.ok (UI.StorageData.mk
      (UI.StorageMetadata.mk "1" "now" 0) []))
      (Except.error "unused") (UI.UIState.mk [] "" "")).1 (by decide)).1,
   ((handleSearch_spec "bank" (Except.error "unused")
      (Except.ok []) (UI.UIState.mk [] "" "")).2 (by decide)).2 [] rfl⟩

/- ======================= Theorems for claim C9 ======================== -/

/-- C9: whenever the get_all_passwords_from_storage invocation rejects,
loadPasswords empties the displayed password list (no stale entries
survive) and records the load-failure error message. -/
theorem loadPasswords_failure (res : Except String UI.StorageData) (st : UI.UIState)
    (e : String) (hres : res = Except.error e) :
    (UI.loadPasswords res st).passwords = [] ∧
    (UI.loadPasswords res st).error = "加载密码失败: " ++ e := by
  subst hres
  exact ⟨rfl, rfl⟩

/-- Witness for C9: a failed load clears a previously populated list. -/
theorem loadPasswords_failure_witness :
    (UI.loadPasswords (Except.error "boom")
      (UI.UIState.mk [UI.Password.mk "1" "t" "d" [] "u"
        (UI.EncryptedData.mk "c" "n" "s") none "a" "b"] "" "")).passwords = [] ∧
    (UI.loadPasswords (Except.error "boom")
      (UI.UIState.mk [UI.Password.mk "1" "t" "d" [] "u"
        (UI.EncryptedData.mk "c" "n" "s") none "a" "b"] "" "")).error
      = "加载密码失败: " ++ "boom" :=
  loadPasswords_failure (Except.error "boom")
    (UI.UIState.mk [UI.Password.mk "1" "t" "d" [] "u"
      (UI.EncryptedData.mk "c" "n" "s") none "a" "b"] "" "") "boom" rfl

/- ======================= Theorems for claim C10 ======================= -/

/-- C10: on a tag list with no duplicates and no empty string, addTag and
removeTag preserve that invariant; addTag is idempotent (adding a present
tag is a no-op); removeTag on an absent tag is the identity; and removeTag
on a present tag removes exactly one occurrence, after which the tag is
gone. -/
theorem tags_invariant (tags : List String) (tag : String) (hv : UI.validTags tags) :
    UI.validTags (UI.addTag tags tag) ∧
    UI.validTags (UI.removeTag tags tag) ∧
    UI.addTag (UI.addTag tags tag) tag = UI.addTag tags tag ∧
    (tag ∉ tags → UI.removeTag tags tag = tags) ∧
    (tag ∈ tags → (UI.removeTag tags tag).length + 1 = tags.length ∧
      tag ∉ UI.removeTag tags tag) := by
  obtain ⟨hnd, hne⟩ := hv
  refine ⟨?_, ?_, ?_, UI.removeTag_of_not_mem tags tag,
    fun hm => ⟨UI.length_removeTag_of_mem tags tag hm,
      UI.not_mem_removeTag_of_nodup tags tag hnd⟩⟩
  · unfold UI.addTag
    by_cases hc : tag ≠ "" ∧ tag ∉ tags
    · rw [if_pos hc]
      constructor
      · refine List.nodup_append.2 ⟨hnd, List.nodup_singleton tag, ?_⟩
        intro x hx hx'
        rw [List.mem_singleton] at hx'
        exact hc.2 (hx' ▸ hx)
      · intro hmem
        rcases List.mem_append.1 hmem with h | h
        · exact hne h
        · rw [List.mem_singleton] at h
          exact hc.1 h.symm
    · rw [if_neg hc]
      exact ⟨hnd, hne⟩
  · exact ⟨(UI.removeTag_sublist tags tag).nodup hnd,
      fun hmem => hne ((UI.removeTag_sublist tags tag).subset hmem)⟩
  · by_cases hc : tag ≠ "" ∧ tag ∉ tags
    · have h1 : UI.addTag tags tag = tags ++ [tag] := by
        unfold UI.addTag
        rw [if_pos hc]
      rw [h1]
      unfold UI.addTag
      rw [if_neg]
      intro hcc
      exact hcc.2 (List.mem_append_right tags (List.mem_singleton.2 rfl))
    · have h1 : UI.addTag tags tag = tags := by
        unfold UI.addTag
        rw [if_neg hc]
      rw [h1]
      exact h1

/-- Witness for C10: removing the present tag b from the valid list
removes exactly one occurrence and leaves b absent. -/
theorem tags_invariant_witness :
    (UI.removeTag ["a", "b"] "b").length + 1 = (["a", "b"] : List String).length ∧
    "b" ∉ UI.removeTag ["a", "b"] "b" :=
  (tags_invariant ["a", "b"] "b" ⟨by decide, by decide⟩).2.2.2.2 (by decide)

/- ================= Password generator (spec model) ==================== -/

namespace Manager

/-- Uppercase character class of the generator. -/
def uppercaseChars : List Char := "ABCDEFGHIJKLMNOPQRSTUVWXYZ".toList

/-- Lowercase character class of the generator. -/
def lowercaseChars : List Char := "abcdefghijklmnopqrstuvwxyz".toList

/-- Digit character class of the generator. -/
def numberChars : List Char := "0123456789".toList

/-- Symbol character class of the generator. -/
def symbolChars : List Char := "!@#$%^&*()_+-=[]\x7b\x7d|;:,.<>?".toList

/-- PasswordGeneratorConfig interface (src/unnamed/part_000 lines 107-114). -/
structure PasswordGeneratorConfig where
  length : Nat
  exclude_chars : Option String
  require_uppercase : Bool
  require_lowercase : Bool
  require_numbers : Bool
  require_symbols : Bool
deriving Repr, DecidableEq

/-- Whether a character is listed in exclude_chars. -/
def excluded (cfg : PasswordGeneratorConfig) (c : Char) : Bool :=
  match cfg.exclude_chars with
  | some s => s.toList.contains c
  | none => false

/-- Character classes whose require flag is set, in a fixed order. -/
def requiredClasses (cfg : PasswordGeneratorConfig) : List (List Char) :=
  (if cfg.require_uppercase then [uppercaseChars] else []) ++
  (if cfg.require_lowercase then [lowercaseChars] else []) ++
  (if cfg.require_numbers then [numberChars] else []) ++
  (if cfg.require_symbols then [symbolChars] else [])

/-- Required classes with every excluded character removed. -/
def availableClasses (cfg : PasswordGeneratorConfig) : List (List Char) :=
  (requiredClasses cfg).map (fun cls => cls.filter (fun c => !excluded cfg c))

/-- Every character generation may use. -/
def charPool (cfg : PasswordGeneratorConfig) : List Char :=
  (availableClasses cfg).flatten

/-- Jointly unsatisfiable constraints: length shorter than the number of
required classes, a required class with every character excluded, or all
allowed characters excluded. -/
def unsatisfiableConfig (cfg : PasswordGeneratorConfig) : Bool :=
  decide (cfg.length < (requiredClasses cfg).length) ||
  (availableClasses cfg).any (fun cls => cls.isEmpty) ||
  (charPool cfg).isEmpty

/-- Selection of one element of a non-empty list by a random draw. -/
def pick (l : List Char) (r : Nat) : Char := l.getD (r % l.length) 'x'

/-- One character from each class, consuming one random draw per class. -/
def pickOnePerClass : List (List Char) → (Nat → Nat) → Nat → List Char
  | [], _, _ => []
  | cls :: rest, rng, i => pick cls (rng i) :: pickOnePerClass rest rng (i + 1)

/-- Modelled from the spec: generate_password(config) draws one character
from every required class, fills the remaining positions from the allowed
pool, and fails with ValidationError when the constraints are jointly
unsatisfiable (manager.rs is not in the source tree).  The randomness
source is an explicit stream of draws. -/
def generate_password (cfg : PasswordGeneratorConfig) (rng : Nat → Nat) :
    Except ManagerError (List Char) :=
  if unsatisfiableConfig cfg then .error .ValidationError
  else
    .ok (pickOnePerClass (availableClasses cfg) rng 0 ++
      (List.range (cfg.length - (availableClasses cfg).length)).map
        (fun j => pick (charPool cfg) (rng ((availableClasses cfg).length + j))))

theorem pick_mem (l : List Char) (r : Nat) (h : l ≠ []) : pick l r ∈ l := by
  have hlen : 0 < l.length := List.length_pos.2 h
  have hlt : r % l.length < l.length := Nat.mod_lt r hlen
  unfold pick
  rw [List.getD_eq_getElem l 'x' hlt]
  exact List.getElem_mem hlt

theorem pickOnePerClass_length (classes : List (List Char)) (rng : Nat → Nat) :
    ∀ i : Nat, (pickOnePerClass classes rng i).length = classes.length := by
  induction classes with
  | nil => intro i; rfl
  | cons c0 rest ih =>
    intro i
    simp only [pickOnePerClass, List.length_cons]
    rw [ih (i + 1)]

theorem pickOnePerClass_covers (classes : List (List Char)) (rng : Nat → Nat) :
    ∀ i : Nat, ∀ cls ∈ classes, cls ≠ [] →
      ∃ c ∈ pickOnePerClass classes rng i, c ∈ cls := by
  induction classes with
  | nil => intro i cls h; exact absurd h (List.not_mem_nil cls)
  | cons c0 rest ih =>
    intro i cls hmem hne
    rcases List.mem_cons.1 hmem with heq | hmemr
    · subst heq
      exact ⟨pick cls (rng i), List.mem_cons_self _ _, pick_mem cls (rng i) hne⟩
    · obtain ⟨c, hc1, hc2⟩ := ih (i + 1) cls hmemr hne
      exact ⟨c, List.mem_cons_of_mem _ hc1, hc2⟩

theorem pickOnePerClass_sources (classes : List (List Char)) (rng : Nat → Nat) :
    ∀ i : Nat, (∀ cls ∈ classes, cls ≠ []) →
      ∀ c ∈ pickOnePerClass classes rng i, ∃ cls ∈ classes, c ∈ cls := by
  induction classes with
  | nil => intro i _ c hc; cases hc
  | cons c0 rest ih =>
    intro i hne c hc
    rcases List.mem_cons.1 hc with heq | hmem
    · refine ⟨c0, List.mem_cons_self _ _, ?_⟩
      rw [heq]
      exact pick_mem c0 (rng i) (hne c0 (List.mem_cons_self _ _))
    · obtain ⟨cls, h1, h2⟩ :=
        ih (i + 1) (fun cl hcl => hne cl (List.mem_cons_of_mem _ hcl)) c hmem
      exact ⟨cls, List.mem_cons_of_mem _ h1, h2⟩

end Manager

/- ======================= Theorems for claim C7 ======================== -/

/-- C7: whenever generate_password succeeds, the password has exactly the
requested length, contains at least one character from every class whose
require flag is true, and contains no character listed in exclude_chars;
whenever the constraints are jointly unsatisfiable, generation fails with
ValidationError. -/
theorem generate_password_spec (cfg : Manager.PasswordGeneratorConfig) (rng : Nat → Nat) :
    (∀ p, Manager.generate_password cfg rng = Except.ok p →
      p.length = cfg.length ∧
      (∀ cls ∈ Manager.requiredClasses cfg, ∃ c ∈ p, c ∈ cls) ∧
      (∀ c ∈ p, Manager.excluded cfg c = false)) ∧
    (Manager.unsatisfiableConfig cfg = true →
      Manager.generate_password cfg rng = Except.error Manager.ManagerError.ValidationError) := by
  constructor
  · intro p hok
    cases hu : Manager.unsatisfiableConfig cfg with
    | true =>
      rw [Manager.generate_password, if_pos hu] at hok
      cases hok
    | false =>
      rw [Manager.generate_password, if_neg (by rw [hu]; exact Bool.false_ne_true)] at hok
      injection hok with hok
      subst hok
      have hu' : ¬ cfg.length < (Manager.requiredClasses cfg).length ∧
          (∀ cls ∈ Manager.availableClasses cfg, cls ≠ []) ∧
          Manager.charPool cfg ≠ [] := by
        simp only [Manager.unsatisfiableConfig, Bool.or_eq_false_iff, decide_eq_false_iff_not,
          List.any_eq_false, List.isEmpty_iff, List.isEmpty_eq_false] at hu
        exact ⟨hu.1.1, hu.1.2, hu.2⟩
      obtain ⟨hlen, hclsne, hpool⟩ := hu'
      have hnav : (Manager.availableClasses cfg).length
          = (Manager.requiredClasses cfg).length := by
        simp [Manager.availableClasses]
      refine ⟨?_, ?_, ?_⟩
      · rw [List.length_append, Manager.pickOnePerClass_length, List.length_map,
          List.length_range, hnav]
        omega
      · intro cls hcls0
        have hmemav : cls.filter (fun c => !Manager.excluded cfg c)
            ∈ Manager.availableClasses cfg := List.mem_map_of_mem _ hcls0
        obtain ⟨c, hc1, hc2⟩ := Manager.pickOnePerClass_covers (Manager.availableClasses cfg)
          rng 0 _ hmemav (hclsne _ hmemav)
        exact ⟨c, List.mem_append_left _ hc1, (List.mem_filter.1 hc2).1⟩
      · intro c hc
        rcases List.mem_append.1 hc with hcm | hcf
        · obtain ⟨av, hav1, hav2⟩ := Manager.pickOnePerClass_sources
            (Manager.availableClasses cfg) rng 0 hclsne c hcm
          rw [Manager.availableClasses] at hav1
          obtain ⟨cls0, hcls0, hfeq⟩ := List.mem_map.1 hav1
          rw [← hfeq] at hav2
          have hb := (List.mem_filter.1 hav2).2
          simpa using hb
        · obtain ⟨j, hj, hceq⟩ := List.mem_map.1 hcf
          rw [← hceq]
          have hcpool := Manager.pick_mem (Manager.charPool cfg)
            (rng ((Manager.availableClasses cfg).length + j)) hpool
          rw [Manager.charPool] at hcpool
          obtain ⟨av, hav1, hav2⟩ := List.mem_flatten.1 hcpool
          rw [Manager.availableClasses] at hav1
          obtain ⟨cls0, hcls0, hfeq⟩ := List.mem_map.1 hav1
          rw [← hfeq] at hav2
          have hb := (List.mem_filter.1 hav2).2
          simpa using hb
  · intro hu
    rw [Manager.generate_password, if_pos hu]

/-- Configuration used by the C7 witness: length 12, exclude 0 and O,
every character class required (the spec's end-to-end scenario 2 with all
flags on). -/
def genCfg : Manager.PasswordGeneratorConfig :=
  { length := 12, exclude_chars := some "0O", require_uppercase := true,
    require_lowercase := true, require_numbers := true, require_symbols := true }

/-- Deterministic randomness stream used by the C7 witness. -/
def genRng : Nat → Nat := fun i => 5 * i + 3

/-- Password the generator produces at the witness configuration. -/
def genPw : List Char := ['D', 'i', '5', '|', 'Y', 'd', 'i', 'n', 's', 'x', '3', '8']

/-- Witness for C7: at the witness configuration the generated password
satisfies every guarantee of the claim. -/
theorem generate_password_spec_witness :
    genPw.length = genCfg.length ∧
    (∀ cls ∈ Manager.requiredClasses genCfg, ∃ c ∈ genPw, c ∈ cls) ∧
    (∀ c ∈ genPw, Manager.excluded genCfg c = false) :=
  (generate_password_spec genCfg genRng).1 genPw (by rfl)
